import Mathlib

/-!
Shallow embedding of the OpenReceView parsing/aggregation core and
master-data layer, together with theorems settling the specification
claims about it.

Conventions used throughout the embedding:

* Python `str` is modelled as Lean `String`; per-character operations work
  on `String.data` (the list of characters).
* Python `str.strip()` is modelled by `pyStrip` (drops leading/trailing
  whitespace characters; Lean's `Char.isWhitespace` covers the ASCII
  whitespace relevant to the record format).
* Python `str.isdigit()` is modelled by `pyIsDigitStr` (non-empty, all
  ASCII digits).
* Fallible Python code (exceptions) is modelled with `Option`/`Except`.
* Python `dict` (insertion ordered, last-write-wins) is modelled as an
  association list with an update operation that replaces in place or
  appends.
-/

/-! ## Basic string helpers (Python string operations) -/

/-- Python whitespace test for one character (`str.strip` / `\s`). -/
def pyIsSpace (c : Char) : Bool := c.isWhitespace

/-- Python `s.strip()`: drop leading and trailing whitespace. -/
def pyStrip (s : String) : String :=
  String.mk (((s.data.dropWhile pyIsSpace).reverse.dropWhile pyIsSpace).reverse)

/-- Python `not s.strip()`: the string contains only whitespace. -/
def isBlankStr (s : String) : Bool := s.data.all pyIsSpace

/-- Carriage-return / line-feed test (for `str.rstrip("\r\n")`). -/
def isCRLF (c : Char) : Bool := c == '\r' || c == '\n'

/-- Python `s.rstrip("\r\n")`. -/
def rstripCRLF (s : String) : String :=
  String.mk ((s.data.reverse.dropWhile isCRLF).reverse)

/-- Python `s.isdigit()` (ASCII digits; empty string is not a digit string). -/
def pyIsDigitStr (s : String) : Bool := !s.data.isEmpty && s.data.all Char.isDigit

/-- Value of a list of decimal digit characters (used for `int(s[a:b])`). -/
def digitsToNat (cs : List Char) : Nat := cs.foldl (fun a c => 10 * a + (c.toNat - 48)) 0

/-- Python `int(s[a:b])` for an all-digit string `s`. -/
def sliceNat (s : String) (a b : Nat) : Nat := digitsToNat ((s.data.drop a).take (b - a))

/-- Python `raw.split(",")`, accumulator形式: split at every literal comma,
no quoting or escaping. -/
def splitCommaAux : List Char → List Char → List (List Char)
  | acc, [] => [acc.reverse]
  | acc, c :: rest =>
    if c = ',' then acc.reverse :: splitCommaAux [] rest
    else splitCommaAux (c :: acc) rest

/-- Python `raw.split(",")`. -/
def pySplitComma (s : String) : List String := (splitCommaAux [] s.data).map String.mk

/-- Python `",".join(fields)`. -/
def pyJoinComma : List String → String
  | [] => ""
  | [f] => f
  | f :: rest => f ++ "," ++ pyJoinComma rest

/-- Character-level companion of `pyJoinComma`, for reasoning about the
split/join round trip. -/
def joinCommaCh : List (List Char) → List Char
  | [] => []
  | [x] => x
  | x :: xs => x ++ ',' :: joinCommaCh xs

/-! ## Data model (src/openreceview/models) -/

/-- One line of a UKE file (`models/uke_record.py`, `UkeRecord`). -/
structure UkeRecord where
  line_no : Nat
  raw : String
  record_type : String
  fields : List String
deriving DecidableEq

/-- Header data extracted from an RE record
(`models/receipt_header.py`, `ReceiptHeader`).  `field_map` is the
diagnostic dict built by the parser, as an association list. -/
structure ReceiptHeader where
  raw_record : String
  patient_id : Option String
  year_month : Option String
  receipt_type : Option String
  name : Option String
  name_kana : Option String
  sex : Option String
  birthday : Option String
  field_map : List (String × String)
  department_codes : Option (List String)
deriving DecidableEq

/-- One disease row of a receipt (`models/uke_receipt.py`, `DiseaseEntry`). -/
structure DiseaseEntry where
  code : String
  start_date : String
  outcome : String
  is_main : Bool
  modifier_codes : List String
deriving DecidableEq

/-- One receipt: a run of records from an RE boundary record up to the next
(`models/uke_receipt.py`, `UkeReceipt`). -/
structure UkeReceipt where
  index : Nat
  start_line : Nat
  records : List UkeRecord
  header : Option ReceiptHeader
  diseases : List DiseaseEntry
deriving DecidableEq

/-- The `end_line` property of `UkeReceipt`. -/
def UkeReceipt.end_line (r : UkeReceipt) : Nat :=
  match r.records.getLast? with
  | none => r.start_line
  | some last => last.line_no

/-! ## Record tokenizer (`parser/uke_parser.py`, `parse_uke_text`) -/

/-- One character of the `RE_TYPE` pattern class `[A-Z0-9]`. -/
def isTagChar (c : Char) : Bool := ('A' ≤ c && c ≤ 'Z') || ('0' ≤ c && c ≤ '9')

/-- The regex `^\s*([A-Z0-9]{2})` applied to a line: the two tag characters
after optional leading whitespace, else the `"??"` sentinel. -/
def recordTypeOf (raw : String) : String :=
  match raw.data.dropWhile pyIsSpace with
  | a :: b :: _ => if isTagChar a && isTagChar b then String.mk [a, b] else "??"
  | _ => "??"

/-- Build the `UkeRecord` for one non-blank line. -/
def mkUkeRecord (idx : Nat) (raw : String) : UkeRecord :=
  { line_no := idx, raw := raw, record_type := recordTypeOf raw, fields := pySplitComma raw }

/-- The tokenizer loop: `for idx, line in enumerate(lines, start=idx0)`.
Blank lines are skipped but still advance the line counter. -/
def parseLinesFrom : Nat → List String → List UkeRecord
  | _, [] => []
  | idx, line :: rest =>
    let raw := rstripCRLF line
    if isBlankStr raw then parseLinesFrom (idx + 1) rest
    else mkUkeRecord idx raw :: parseLinesFrom (idx + 1) rest

/-- `parse_uke_text`.  Python's `text.splitlines()` is modelled as splitting
on `'\n'`; the code's own `rstrip("\r\n")` then handles CRLF terminators,
so the model agrees with the source on LF and CRLF separated text (the
record format's newline-separated contract). -/
def parse_uke_text (text : String) : List UkeRecord :=
  parseLinesFrom 1 (text.splitOn "\n")

/-! ## Header heuristics (`parser/receipt_header_parser.py`) -/

/-- One character of `KANA_PATTERN = [ァ-ヶｦ-ﾟ]` (full- or half-width katakana). -/
def isKanaChar (c : Char) : Bool :=
  (0x30A1 ≤ c.toNat && c.toNat ≤ 0x30F6) || (0xFF66 ≤ c.toNat && c.toNat ≤ 0xFF9F)

/-- One character of `KANJI_PATTERN = [一-龥々]` (CJK ideographs). -/
def isKanjiChar (c : Char) : Bool :=
  (0x4E00 ≤ c.toNat && c.toNat ≤ 0x9FA5) || (c.toNat == 0x3005)

/-- `_detect_yyyymm`: forward scan; first 6-digit field with year 2000..2099
and month 01..12. -/
def detect_yyyymm (fields : List String) : Option String :=
  fields.findSome? fun f =>
    let s := pyStrip f
    if s.length = 6 ∧ pyIsDigitStr s then
      if 2000 ≤ sliceNat s 0 4 ∧ sliceNat s 0 4 ≤ 2099 ∧
          1 ≤ sliceNat s 4 6 ∧ sliceNat s 4 6 ≤ 12 then some s else none
    else none

/-- `_detect_patient_id`: reverse scan; first all-digit field of length 2..10
not equal to the excluded (year-month) value. -/
def detect_patient_id (fields : List String) (exclude : Option String) : Option String :=
  fields.reverse.findSome? fun f =>
    let s := pyStrip f
    if ¬ pyIsDigitStr s then none
    else if exclude = some s then none
    else if 2 ≤ s.length ∧ s.length ≤ 10 then some s
    else none

/-- `_detect_name`: forward scan; first field of length ≥ 2 containing a CJK
ideograph. -/
def detect_name (fields : List String) : Option String :=
  fields.findSome? fun f =>
    let s := pyStrip f
    if s.length < 2 then none
    else if s.data.any isKanjiChar then some s
    else none

/-- `_detect_name_kana`: reverse scan; first field of length ≥ 2 containing a
katakana character. -/
def detect_name_kana (fields : List String) : Option String :=
  fields.reverse.findSome? fun f =>
    let s := pyStrip f
    if s.length < 2 then none
    else if s.data.any isKanaChar then some s
    else none

/-- `_detect_birthday`: forward scan; first 8-digit field with year
1900..2099, month 01..12, day 01..31 (loose check). -/
def detect_birthday (fields : List String) : Option String :=
  fields.findSome? fun f =>
    let s := pyStrip f
    if s.length = 8 ∧ pyIsDigitStr s then
      if 1900 ≤ sliceNat s 0 4 ∧ sliceNat s 0 4 ≤ 2099 ∧
          1 ≤ sliceNat s 4 6 ∧ sliceNat s 4 6 ≤ 12 ∧
          1 ≤ sliceNat s 6 8 ∧ sliceNat s 6 8 ≤ 31 then some s else none
    else none

/-- A sex-code candidate: stripped value `"1"` or `"2"`. -/
def sexCand (f : String) : Option String :=
  let s := pyStrip f
  if s = "1" ∨ s = "2" then some s else none

/-- `_detect_sex`: prefer a `"1"`/`"2"` field within the three positions after
the detected name (Python `range(idx + 1, min(len(fields), idx + 4))`, with
`idx = -1` when `fields.index(name)` raises); otherwise fall back to the
first such field anywhere. -/
def detect_sex (fields : List String) : Option String :=
  match detect_name fields with
  | none => fields.findSome? sexCand
  | some name =>
    let lo := match fields.indexOf? name with | some i => i + 1 | none => 0
    let hi := match fields.indexOf? name with | some i => min fields.length (i + 4) | none => min fields.length 3
    match ((fields.drop lo).take (hi - lo)).findSome? sexCand with
    | some s => some s
    | none => fields.findSome? sexCand

/-- `parse_receipt_header`: extract the header from the first RE record of a
receipt's records, or an all-absent header when no RE record exists. -/
def parse_receipt_header (records : List UkeRecord) : ReceiptHeader :=
  match records.find? (fun r => r.record_type == "RE") with
  | none =>
    { raw_record := "", patient_id := none, year_month := none, receipt_type := none,
      name := none, name_kana := none, sex := none, birthday := none,
      field_map := [], department_codes := none }
  | some re_rec =>
    let fields := re_rec.fields.map pyStrip
    let receipt_type := fields[1]?
    let year_month := detect_yyyymm fields
    let patient_id := detect_patient_id fields year_month
    let name := detect_name fields
    let name_kana := detect_name_kana fields
    let birthday := detect_birthday fields
    let sex := detect_sex fields
    { raw_record := re_rec.raw, patient_id := patient_id, year_month := year_month,
      receipt_type := receipt_type, name := name, name_kana := name_kana,
      sex := sex, birthday := birthday,
      field_map := [
        ("receipt_type_field", receipt_type.getD ""),
        ("year_month_detected", year_month.getD ""),
        ("patient_id_detected", patient_id.getD ""),
        ("name_detected", name.getD ""),
        ("name_kana_detected", name_kana.getD ""),
        ("birthday_detected", birthday.getD ""),
        ("sex_detected", sex.getD "")],
      department_codes := none }

/-! ## Receipt aggregation (`parser/uke_parser.py`, `group_records_into_receipts`) -/

/-- Closing a receipt: attach its header (parsed from its own records). -/
def finalizeReceipt (cur : UkeReceipt) : UkeReceipt :=
  { cur with header := some (parse_receipt_header cur.records) }

/-- The aggregation loop.  `curOpt` is the currently open receipt (if any),
`receipts` the finalized output so far.  An RE record finalizes the open
receipt and opens a new one with `index = len(receipts) + 1`; other records
are appended to the open receipt or dropped when none is open. -/
def groupAux : List UkeRecord → Option UkeReceipt → List UkeReceipt → List UkeReceipt
  | [], none, receipts => receipts
  | [], some cur, receipts => receipts ++ [finalizeReceipt cur]
  | r :: rest, curOpt, receipts =>
    if r.record_type == "RE" then
      match curOpt with
      | none =>
        groupAux rest
          (some { index := receipts.length + 1, start_line := r.line_no,
                  records := [r], header := none, diseases := [] }) receipts
      | some cur =>
        let receipts2 := receipts ++ [finalizeReceipt cur]
        groupAux rest
          (some { index := receipts2.length + 1, start_line := r.line_no,
                  records := [r], header := none, diseases := [] }) receipts2
    else
      match curOpt with
      | none => groupAux rest none receipts
      | some cur => groupAux rest (some { cur with records := cur.records ++ [r] }) receipts

/-- `group_records_into_receipts`. -/
def group_records_into_receipts (records : List UkeRecord) : List UkeReceipt :=
  groupAux records none []

/-- Well-formedness of an emitted receipt: non-empty record list starting
with an RE record, `start_line` taken from that record, and a header built
from the receipt's own records. -/
def receiptWf (r : UkeReceipt) : Prop :=
  ∃ first, r.records.head? = some first ∧ first.record_type = "RE" ∧
    r.start_line = first.line_no ∧ r.header = some (parse_receipt_header r.records)

/-! ## Modifier-code decomposition (`parser/uke_parser.py`, `_split_modifier_codes`) -/

/-- The chunking loop `for i in range(0, len(digits), width)` of
`_split_modifier_codes`.  `known` is `Option` so that the Python call with
`known=None` is expressible: `chunk in None` raises `TypeError`, modelled
as `Except.error` — but only when a full-width chunk is actually tested
(`len(chunk) == width and chunk in known` short-circuits).  A `width` of 0
would make `range` raise `ValueError`, also an error. -/
def splitChunks (width : Nat) (known : Option (List String)) (ds : List Char) :
    Except Unit (List String) :=
  if hw : width = 0 then .error ()
  else if hd : ds = [] then .ok []
  else
    let chunk := ds.take width
    if chunk.length = width then
      match known with
      | none => .error ()
      | some k =>
        match splitChunks width known (ds.drop width) with
        | .error e => .error e
        | .ok tail => .ok (if k.contains (String.mk chunk) then String.mk chunk :: tail else tail)
    else .ok []
termination_by ds.length
decreasing_by
  have h1 : 0 < ds.length := List.length_pos.mpr hd
  simp only [List.length_drop]
  omega

/-- `_split_modifier_codes(raw, known, width)`: strip non-digits, then split
into `width`-sized chunks, keeping those found in `known`. -/
def _split_modifier_codes (raw : String) (known : Option (List String)) (width : Nat) :
    Except Unit (List String) :=
  if raw = "" then .ok []
  else
    let digits := raw.data.filter Char.isDigit
    if digits.isEmpty then .ok []
    else splitChunks width known digits

/-- Specification-side chunking: the consecutive full-`width` chunks of a
character list, the trailing short chunk dropped.  Used to state what the
loop in `_split_modifier_codes` computes. -/
def chunksExact (width : Nat) (ds : List Char) : List (List Char) :=
  if hw : width = 0 then []
  else if hlt : ds.length < width then []
  else ds.take width :: chunksExact width (ds.drop width)
termination_by ds.length
decreasing_by
  simp only [List.length_drop]
  omega

/-! ## Disease attachment (`parser/uke_parser.py`, `attach_diseases_to_receipt`) -/

/-- The `get(i)` field accessor with `""` default used by the SY handler. -/
def fieldGet (f : List String) (i : Nat) : String := f.getD i ""

/-- The `DiseaseEntry` built from one SY record.  The source calls
`_split_modifier_codes(modifier_raw, modifier_codes_known)` with the real
known set and default width 4, so the error branch is unreachable there. -/
def syEntry (known : List String) (r : UkeRecord) : DiseaseEntry :=
  { code := pyStrip (fieldGet r.fields 1),
    start_date := pyStrip (fieldGet r.fields 2),
    outcome := pyStrip (fieldGet r.fields 3),
    is_main := pyStrip (fieldGet r.fields 6) == "1" || pyStrip (fieldGet r.fields 6) == "主",
    modifier_codes :=
      match _split_modifier_codes (pyStrip (fieldGet r.fields 4)) (some known) 4 with
      | .ok l => l
      | .error _ => [] }

/-- The record loop of `attach_diseases_to_receipt`: non-SY records are
skipped, SY records contribute one entry each, in order. -/
def diseasesOf (known : List String) : List UkeRecord → List DiseaseEntry
  | [] => []
  | r :: rest =>
    if r.record_type == "SY" then syEntry known r :: diseasesOf known rest
    else diseasesOf known rest

/-- `attach_diseases_to_receipt`: set `receipt.diseases` from the receipt's
SY records. -/
def attach_diseases_to_receipt (receipt : UkeReceipt) (modifier_codes_known : List String) :
    UkeReceipt :=
  { receipt with diseases := diseasesOf modifier_codes_known receipt.records }

/-! ## Master tables (`master_loader.py`, `load_simple_master`)

The byte-decoding and CSV-splitting frontend (`read_bytes`, `_decode_text`,
`_detect_delimiter`, `csv.reader`) is abstracted: a file is modelled as its
list of already-split rows.  The row-processing loop is embedded exactly. -/

/-- A parsed delimited row. -/
abbrev Row := List String

/-- A `code → {name, kana}` table entry. -/
structure MasterEntry where
  name : String
  kana : String
deriving DecidableEq

/-- Python-dict insertion `d[k] = v`: replace the value in place if the key
exists, else append (insertion ordered, last-write-wins). -/
def dictInsert : List (String × MasterEntry) → String → MasterEntry → List (String × MasterEntry)
  | [], k, v => [(k, v)]
  | kv :: d, k, v => if kv.1 == k then (k, v) :: d else kv :: dictInsert d k v

/-- Python-dict lookup. -/
def dictGet (d : List (String × MasterEntry)) (c : String) : Option MasterEntry :=
  (d.find? (fun kv => kv.1 == c)).map (fun kv => kv.2)

/-- The `safe(idx)` accessor of the row loops: `row[idx].strip()` when the
index is in range, else `""`. -/
def safeCell (row : Row) (i : Nat) : String := pyStrip (row.getD i "")

/-- One row of the `load_simple_master` loop: skip empty rows, rows whose
code cell is empty, and rows where both name and kana are empty; otherwise
store `code → {name, kana}` (overwriting any earlier entry). -/
def masterStep (code_col name_col : Nat) (kana_col : Option Nat)
    (master : List (String × MasterEntry)) (row : Row) : List (String × MasterEntry) :=
  if row = [] then master
  else
    let code := safeCell row code_col
    if code = "" then master
    else
      let name := safeCell row name_col
      let kana := match kana_col with | some k => safeCell row k | none => ""
      if name = "" ∧ kana = "" then master
      else dictInsert master code { name := name, kana := kana }

/-- `load_simple_master(paths, code_col, name_col, kana_col)` over the rows
of each file, files processed in the order supplied. -/
def load_simple_master (files : List (List Row)) (code_col name_col : Nat)
    (kana_col : Option Nat) : List (String × MasterEntry) :=
  files.foldl (fun m file => file.foldl (masterStep code_col name_col kana_col) m) []

/-- Specification-side helper: the entry a single row contributes for code
`c`, if any (mirrors the skip conditions of `masterStep`). -/
def rowContrib (code_col name_col : Nat) (kana_col : Option Nat) (c : String) (row : Row) :
    Option MasterEntry :=
  if row = [] then none
  else
    let code := safeCell row code_col
    if code = "" then none
    else
      let name := safeCell row name_col
      let kana := match kana_col with | some k => safeCell row k | none => ""
      if name = "" ∧ kana = "" then none
      else if code = c then some { name := name, kana := kana }
      else none

/-- Specification-side helper: the value the rows of one file leave for code
`c` (the last contributing row wins). -/
def lastRowValue (code_col name_col : Nat) (kana_col : Option Nat) (c : String) :
    List Row → Option MasterEntry
  | [] => none
  | row :: rest =>
    match lastRowValue code_col name_col kana_col c rest with
    | some v => some v
    | none => rowContrib code_col name_col kana_col c row

/-! ## Cache signature (`master_loader.py`, `_build_signature`) -/

/-- `pathlib.Path(p).name`: the part of the path after the last `/`. -/
def pathName (p : String) : String :=
  String.mk ((p.data.reverse.takeWhile (fun c => c ≠ '/')).reverse)

/-- The decimal digit character for one digit value (values ≥ 10 do not
occur for base-10 digits). -/
def digitChar (d : Nat) : Char :=
  if d = 0 then '0' else if d = 1 then '1' else if d = 2 then '2' else if d = 3 then '3'
  else if d = 4 then '4' else if d = 5 then '5' else if d = 6 then '6' else if d = 7 then '7'
  else if d = 8 then '8' else '9'

/-- Decimal representation of a natural number (Python `f"{n}"`). -/
def natDec (n : Nat) : String :=
  if n = 0 then "0" else String.mk (((Nat.digits 10 n).map digitChar).reverse)

/-- A file's stat result: `some (st_mtime_ns, st_size)`, or `none` when
`stat` raises `FileNotFoundError`. -/
abbrev StatFn := String → Option (Nat × Nat)

/-- One signature part: `f"{p.name}:{mtime_ns}:{size}"`, or
`f"{p.name}:missing"` when the file cannot be stat'ed. -/
def statPart (stat : StatFn) (p : String) : String :=
  match stat p with
  | some (m, s) => pathName p ++ ":" ++ natDec m ++ ":" ++ natDec s
  | none => pathName p ++ ":missing"

/-- Python `"_".join(parts)`. -/
def joinUnderscore : List String → String
  | [] => ""
  | [p] => p
  | p :: ps => p ++ "_" ++ joinUnderscore ps

/-- Python `sorted(paths, key=lambda x: str(x))` (paths are modelled as their
path strings, compared lexicographically by code point). -/
def sortPaths (paths : List String) : List String :=
  List.insertionSort (fun a b : String => a ≤ b) paths

/-- `_build_signature(paths)` with the filesystem abstracted as `stat`. -/
def _build_signature (paths : List String) (stat : StatFn) : String :=
  joinUnderscore ((sortPaths paths).map (statPart stat))

/-! ## Encoding fallback (`master_loader.py`, `_decode_text`)

The platform codecs are abstracted: `dec enc raw` is the strict decode of
`raw` under encoding name `enc` (`none` models `UnicodeDecodeError`), and
`decIgnore enc raw` the forced lossy decode (`errors="ignore"`). -/

/-- `_decode_text(raw)`: try `cp932`, `shift_jis`, `utf-8`, `utf-8-sig` in
order; on total failure force a lossy decode with `cp932`. -/
def _decode_text (dec : String → List Nat → Option String)
    (decIgnore : String → List Nat → String) (raw : List Nat) : String :=
  match ["cp932", "shift_jis", "utf-8", "utf-8-sig"].findSome? (fun enc => dec enc raw) with
  | some t => t
  | none => decIgnore "cp932" raw

/-! ## Master-path configuration (`master_loader.py`, `save_master_paths` /
`load_all_master_paths`)

The filesystem is abstracted as a map from path to parsed JSON content
(`FileContent.config` for a JSON object of string-list entries,
`FileContent.invalid` for unreadable/otherwise-shaped content, `none` for a
missing file); JSON serialization round-trips and is left implicit. -/

/-- Parsed content of a configuration file. -/
inductive FileContent where
  | config (entries : List (String × List String))
  | invalid
deriving DecidableEq

/-- The abstract filesystem. -/
abbrev FS := String → Option FileContent

/-- The path `save_master_paths` writes:
`Path.home() / ".openreceview_master_paths.json"`. -/
def SAVE_CONFIG_PATH : String := "~/.openreceview_master_paths.json"

/-- The path `load_all_master_paths` reads: `_CONFIG_FILE`, i.e.
`~/.openreceview_cache/master_paths.json`. -/
def LOAD_CONFIG_PATH : String := "~/.openreceview_cache/master_paths.json"

/-- JSON-object update `data[category] = paths`: overwrite the one key,
preserve all others. -/
def configSet (d : List (String × List String)) (k : String) (v : List String) :
    List (String × List String) :=
  if d.any (fun kv => kv.1 == k) then d.map (fun kv => if kv.1 == k then (k, v) else kv)
  else d ++ [(k, v)]

/-- `save_master_paths(category, paths)`: read the existing config at its
write path (missing or damaged → `{}`), set the category's entry, write the
result back. -/
def save_master_paths (fs : FS) (category : String) (paths : List String) : FS :=
  let data :=
    match fs SAVE_CONFIG_PATH with
    | some (.config d) => d
    | some .invalid => []
    | none => []
  fun p => if p = SAVE_CONFIG_PATH then some (.config (configSet data category paths)) else fs p

/-- `load_all_master_paths()`: read `_CONFIG_FILE`; missing or damaged → `{}`. -/
def load_all_master_paths (fs : FS) : List (String × List String) :=
  match fs LOAD_CONFIG_PATH with
  | some (.config d) => d
  | some .invalid => []
  | none => []

/-! ## General helper lemmas -/

theorem string_eq_of_data {a b : String} (h : a.data = b.data) : a = b := by
  cases a; cases b; exact congrArg String.mk h

theorem string_append_left_cancel {x A B : String} (h : x ++ A = x ++ B) : A = B := by
  apply string_eq_of_data
  have hd := congrArg String.data h
  rw [String.data_append, String.data_append] at hd
  exact List.append_cancel_left hd

theorem string_append_right_cancel {A B y : String} (h : A ++ y = B ++ y) : A = B := by
  apply string_eq_of_data
  have hd := congrArg String.data h
  rw [String.data_append, String.data_append] at hd
  exact List.append_cancel_right hd

/-! ## C1: master-path configuration round trip -/

/-- Claim C1 (code_bug): the claim asserts that after `save_master_paths`
succeeds, `load_all_master_paths` returns a mapping containing the saved
entry.  In the source, `save_master_paths` writes
`~/.openreceview_master_paths.json` while `load_all_master_paths` reads
`_CONFIG_FILE = ~/.openreceview_cache/master_paths.json`, so a save is
never visible to the loader: loading after a save returns exactly what it
returned before, and on a fresh filesystem it returns the empty mapping. -/
theorem save_master_paths_invisible_to_load_all :
    (∀ (fs : FS) (category : String) (paths : List String),
      load_all_master_paths (save_master_paths fs category paths) = load_all_master_paths fs)
    ∧ load_all_master_paths (save_master_paths (fun _ => none) "disease" ["/tmp/a.csv"]) = []
    ∧ SAVE_CONFIG_PATH ≠ LOAD_CONFIG_PATH := by
  have hne : LOAD_CONFIG_PATH ≠ SAVE_CONFIG_PATH := by decide
  refine ⟨?_, by decide, by decide⟩
  intro fs category paths
  simp [load_all_master_paths, save_master_paths, hne]

/-! ## C2: fixed-width modifier-code decomposition -/

/-- Claim C2 (counterexample): with the known-code set omitted (`None`),
`_split_modifier_codes("20572058", None)` does not return
`["2057", "2058"]` — the membership test `chunk in known` raises
`TypeError` on the first full-width chunk, because `known` is a required
set in the source and filtering is unconditional. -/
theorem split_modifier_codes_none_raises :
    _split_modifier_codes "20572058" none 4 = .error ()
    ∧ _split_modifier_codes "20572058" none 4 ≠ .ok ["2057", "2058"] := by
  have h : _split_modifier_codes "20572058" none 4 = .error () := by
    simp [_split_modifier_codes, splitChunks]
  exact ⟨h, by simp [h]⟩

theorem splitChunks_some (k : List String) (width : Nat) (hw : width ≠ 0) :
    ∀ (n : Nat) (ds : List Char), ds.length ≤ n →
      splitChunks width (some k) ds =
        .ok ((chunksExact width ds).filterMap
          (fun c => if k.contains (String.mk c) then some (String.mk c) else none)) := by
  intro n
  induction n with
  | zero =>
    intro ds hds
    have h0 : ds = [] := List.length_eq_zero.mp (Nat.le_zero.mp hds)
    subst h0
    rw [splitChunks, chunksExact]
    simp [hw]
  | succ n ih =>
    intro ds hds
    rcases ds with _ | ⟨d, t⟩
    · rw [splitChunks, chunksExact]
      simp [hw]
    · rw [splitChunks, chunksExact]
      by_cases hlen : width ≤ t.length + 1
      · have hnlt : ¬ (t.length + 1 < width) := by omega
        have hlt2 : ((d :: t).drop width).length ≤ n := by
          simp only [List.length_drop, List.length_cons]
          simp only [List.length_cons] at hds
          omega
        have hrec := ih ((d :: t).drop width) hlt2
        simp [hw, hlen, hnlt, hrec, List.filterMap_cons]
        by_cases hc : String.mk ((d :: t).take width) ∈ k
        · simp [hc]
        · simp [hc]
      · have hlt' : t.length + 1 < width := by omega
        simp [hw, hlen, hlt']

/-- Claim C2 (amended): `known` is required in the source, and filtering is
always applied: the result is exactly the full-width chunks of the
digit-filtered input that occur in `known` (trailing short chunk dropped).
With `known=None`, an input with no full-width chunk still returns `[]`
before the membership test is reached. -/
theorem split_modifier_codes_requires_known :
    (∀ (raw : String) (k : List String) (width : Nat), width ≠ 0 →
      _split_modifier_codes raw (some k) width =
        .ok ((chunksExact width (raw.data.filter Char.isDigit)).filterMap
          (fun c => if k.contains (String.mk c) then some (String.mk c) else none)))
    ∧ _split_modifier_codes "20572058" (some ["2057", "2058"]) 4 = .ok ["2057", "2058"]
    ∧ _split_modifier_codes "205" none 4 = .ok []
    ∧ _split_modifier_codes "20572058" (some ["2057"]) 4 = .ok ["2057"] := by
  have hgen : ∀ (raw : String) (k : List String) (width : Nat), width ≠ 0 →
      _split_modifier_codes raw (some k) width =
        .ok ((chunksExact width (raw.data.filter Char.isDigit)).filterMap
          (fun c => if k.contains (String.mk c) then some (String.mk c) else none)) := by
    intro raw k width hw
    by_cases hr : raw = ""
    · subst hr
      rw [chunksExact]
      simp [_split_modifier_codes, hw]
    · by_cases hd : (raw.data.filter Char.isDigit).isEmpty
      · have hnil : raw.data.filter Char.isDigit = [] := by
          simpa [List.isEmpty_iff] using hd
        rw [_split_modifier_codes]
        rw [hnil, chunksExact]
        simp [hr, hw]
      · rw [_split_modifier_codes]
        simp only [hr, hd, if_neg, ite_false, Bool.false_eq_true]
        exact splitChunks_some k width hw _ _ le_rfl
  refine ⟨hgen, ?_, ?_, ?_⟩
  · rw [hgen "20572058" ["2057", "2058"] 4 (by decide)]
    simp [chunksExact]
  · simp [_split_modifier_codes, splitChunks]
  · rw [hgen "20572058" ["2057"] 4 (by decide)]
    simp [chunksExact]

/-- Witness for the amended C2 theorem at a concrete input. -/
theorem split_modifier_codes_requires_known_witness :
    _split_modifier_codes "x1234y" (some ["1234"]) 4 =
      .ok ((chunksExact 4 ("x1234y".data.filter Char.isDigit)).filterMap
        (fun c => if List.contains ["1234"] (String.mk c) then some (String.mk c) else none)) :=
  split_modifier_codes_requires_known.1 "x1234y" ["1234"] 4 (by decide)

/-! ## C6: ordered encoding fallback -/

/-- Claim C6: `_decode_text` tries `cp932`, `shift_jis`, `utf-8`,
`utf-8-sig` in that order and returns the first successful strict decode;
only when all four reject the bytes does it return the forced lossy
`cp932` decode, with no further retry.  (The codecs themselves are
platform library code and are abstracted as the parameters `dec` /
`decIgnore`.) -/
theorem decode_text_encoding_order :
    ∀ (dec : String → List Nat → Option String) (decIgnore : String → List Nat → String)
      (raw : List Nat),
      (∀ t, dec "cp932" raw = some t → _decode_text dec decIgnore raw = t)
      ∧ (∀ t, dec "cp932" raw = none → dec "shift_jis" raw = some t →
          _decode_text dec decIgnore raw = t)
      ∧ (∀ t, dec "cp932" raw = none → dec "shift_jis" raw = none →
          dec "utf-8" raw = some t → _decode_text dec decIgnore raw = t)
      ∧ (∀ t, dec "cp932" raw = none → dec "shift_jis" raw = none →
          dec "utf-8" raw = none → dec "utf-8-sig" raw = some t →
          _decode_text dec decIgnore raw = t)
      ∧ (dec "cp932" raw = none → dec "shift_jis" raw = none →
          dec "utf-8" raw = none → dec "utf-8-sig" raw = none →
          _decode_text dec decIgnore raw = decIgnore "cp932" raw) := by
  intro dec decIgnore raw
  refine ⟨?_, ?_, ?_, ?_, ?_⟩
  · intro t h1
    simp [_decode_text, List.findSome?_cons, h1]
  · intro t h1 h2
    simp [_decode_text, List.findSome?_cons, h1, h2]
  · intro t h1 h2 h3
    simp [_decode_text, List.findSome?_cons, h1, h2, h3]
  · intro t h1 h2 h3 h4
    simp [_decode_text, List.findSome?_cons, h1, h2, h3, h4]
  · intro h1 h2 h3 h4
    simp [_decode_text, List.findSome?_cons, h1, h2, h3, h4]

/-- Witness for C6: a decoder succeeding only at `utf-8` is used (third
attempt), and with every strict decode failing the lossy decode is used. -/
theorem decode_text_encoding_order_witness :
    _decode_text (fun enc _ => if enc = "utf-8" then some "T" else none) (fun _ _ => "L") [0] = "T"
    ∧ _decode_text (fun _ _ => none) (fun _ _ => "L") [0] = "L" :=
  ⟨(decode_text_encoding_order _ _ _).2.2.1 "T" (by simp) (by simp) (by simp),
   (decode_text_encoding_order _ _ _).2.2.2.2 rfl rfl rfl rfl⟩

/-! ## C8: header extraction on the sample boundary record -/

/-- Claim C8: header extraction on the boundary-record field list
`["RE","11","202510","山田太郎","ヤマダタロウ","1","19800101","12345"]`
yields the year-month, name, kana, birthday, patient id and sex values
stated by the specification. -/
theorem parse_receipt_header_sample :
    (parse_receipt_header [⟨1, "RE,11,202510,山田太郎,ヤマダタロウ,1,19800101,12345", "RE",
        ["RE", "11", "202510", "山田太郎", "ヤマダタロウ", "1", "19800101", "12345"]⟩]).year_month
        = some "202510"
    ∧ (parse_receipt_header [⟨1, "RE,11,202510,山田太郎,ヤマダタロウ,1,19800101,12345", "RE",
        ["RE", "11", "202510", "山田太郎", "ヤマダタロウ", "1", "19800101", "12345"]⟩]).name
        = some "山田太郎"
    ∧ (parse_receipt_header [⟨1, "RE,11,202510,山田太郎,ヤマダタロウ,1,19800101,12345", "RE",
        ["RE", "11", "202510", "山田太郎", "ヤマダタロウ", "1", "19800101", "12345"]⟩]).name_kana
        = some "ヤマダタロウ"
    ∧ (parse_receipt_header [⟨1, "RE,11,202510,山田太郎,ヤマダタロウ,1,19800101,12345", "RE",
        ["RE", "11", "202510", "山田太郎", "ヤマダタロウ", "1", "19800101", "12345"]⟩]).birthday
        = some "19800101"
    ∧ (parse_receipt_header [⟨1, "RE,11,202510,山田太郎,ヤマダタロウ,1,19800101,12345", "RE",
        ["RE", "11", "202510", "山田太郎", "ヤマダタロウ", "1", "19800101", "12345"]⟩]).patient_id
        = some "12345"
    ∧ (parse_receipt_header [⟨1, "RE,11,202510,山田太郎,ヤマダタロウ,1,19800101,12345", "RE",
        ["RE", "11", "202510", "山田太郎", "ヤマダタロウ", "1", "19800101", "12345"]⟩]).sex
        = some "1" := by
  refine ⟨by decide, by decide, by decide, by decide, by decide, by decide⟩

/-! ## C10: disease attachment -/

theorem diseasesOf_eq_filterMap (known : List String) (l : List UkeRecord) :
    diseasesOf known l =
      l.filterMap (fun r => if r.record_type = "SY" then some (syEntry known r) else none) := by
  induction l with
  | nil => rfl
  | cons r rest ih =>
    by_cases h : r.record_type = "SY"
    · simp [diseasesOf, List.filterMap_cons, h, ih]
    · simp [diseasesOf, List.filterMap_cons, h, ih]

/-- Claim C10: `attach_diseases_to_receipt` produces exactly one
`DiseaseEntry` per SY record, in record order (records of other types
contribute nothing), and an entry is main iff the stripped seventh field
of its SY record is `"1"` or `"主"`. -/
theorem attach_diseases_sy_projection (receipt : UkeReceipt) (known : List String) :
    (attach_diseases_to_receipt receipt known).diseases =
      receipt.records.filterMap
        (fun r => if r.record_type = "SY" then some (syEntry known r) else none)
    ∧ ∀ r : UkeRecord, (syEntry known r).is_main = true ↔
        (pyStrip (fieldGet r.fields 6) = "1" ∨ pyStrip (fieldGet r.fields 6) = "主") := by
  constructor
  · exact diseasesOf_eq_filterMap known receipt.records
  · intro r
    simp [syEntry]

/-! ## C7: last-row-wins across master files -/

theorem dictGet_dictInsert (d : List (String × MasterEntry)) (k c : String) (v : MasterEntry) :
    dictGet (dictInsert d k v) c = if c = k then some v else dictGet d c := by
  induction d with
  | nil =>
    by_cases h : c = k
    · subst h
      simp [dictInsert, dictGet, List.find?]
    · have hb : (k == c) = false := by
        rw [beq_eq_false_iff_ne]
        exact fun hh => h hh.symm
      simp [dictInsert, dictGet, List.find?, hb, h]
  | cons kv d ih =>
    by_cases h1 : kv.1 = k
    · have hb1 : (kv.1 == k) = true := beq_iff_eq.mpr h1
      by_cases h2 : c = k
      · subst h2
        simp [dictInsert, dictGet, hb1, List.find?]
      · have hb2 : (k == c) = false := by
          rw [beq_eq_false_iff_ne]
          exact fun hh => h2 hh.symm
        have hb3 : (kv.1 == c) = false := by
          rw [beq_eq_false_iff_ne, h1]
          exact fun hh => h2 hh.symm
        simp [dictInsert, dictGet, hb1, hb2, hb3, List.find?, h2]
    · have hb1 : (kv.1 == k) = false := by
        rw [beq_eq_false_iff_ne]
        exact h1
      by_cases h2 : kv.1 = c
      · have h3 : ¬ c = k := fun hh => h1 (h2.trans hh)
        have hb2 : (kv.1 == c) = true := beq_iff_eq.mpr h2
        simp [dictInsert, dictGet, hb1, hb2, List.find?, h3]
      · have hb2 : (kv.1 == c) = false := by
          rw [beq_eq_false_iff_ne]
          exact h2
        simp only [dictInsert, hb1, Bool.false_eq_true, ite_false, if_neg]
        simp only [dictGet, List.find?, hb2] at ih ⊢
        exact ih

theorem dictGet_masterStep (code_col name_col : Nat) (kana_col : Option Nat) (c : String)
    (row : Row) (d : List (String × MasterEntry)) :
    dictGet (masterStep code_col name_col kana_col d row) c =
      match rowContrib code_col name_col kana_col c row with
      | some v => some v
      | none => dictGet d c := by
  simp only [masterStep, rowContrib]
  by_cases h1 : row = []
  · simp [h1]
  · simp only [h1, ite_false, if_neg]
    by_cases h2 : safeCell row code_col = ""
    · simp [h2]
    · simp only [h2, ite_false, if_neg]
      by_cases h3 : safeCell row name_col = "" ∧
          (match kana_col with | some k => safeCell row k | none => "") = ""
      · simp [h3]
      · simp only [h3, ite_false, if_neg]
        rw [dictGet_dictInsert]
        by_cases h4 : safeCell row code_col = c
        · simp [h4]
        · have h5 : ¬ c = safeCell row code_col := fun hh => h4 hh.symm
          simp [h4, h5]

theorem dictGet_foldRows (code_col name_col : Nat) (kana_col : Option Nat) (c : String) :
    ∀ (rows : List Row) (d : List (String × MasterEntry)),
      dictGet (rows.foldl (masterStep code_col name_col kana_col) d) c =
        match lastRowValue code_col name_col kana_col c rows with
        | some v => some v
        | none => dictGet d c := by
  intro rows
  induction rows with
  | nil => intro d; simp [lastRowValue]
  | cons row rest ih =>
    intro d
    rw [List.foldl_cons, lastRowValue]
    rw [ih]
    rw [dictGet_masterStep]
    cases hlast : lastRowValue code_col name_col kana_col c rest with
    | some v => simp
    | none => simp

/-- Claim C7 (counterexample): the claim asserts that whenever two files
both contain a row for a code, the later file's value wins.  A later row
whose extracted name and kana are both empty is skipped entirely, so the
earlier file's value survives: loading `[["C","foo"]]` then `[["C",""]]`
yields `{name:"foo"}` for `"C"`, while the later file alone contributes
nothing for `"C"`. -/
theorem load_simple_master_empty_row_does_not_override :
    dictGet (load_simple_master [[["C", "foo"]], [["C", ""]]] 0 1 none) "C"
      = some { name := "foo", kana := "" }
    ∧ dictGet (load_simple_master [[["C", ""]]] 0 1 none) "C" = none := by
  exact ⟨by decide, by decide⟩

/-- Claim C7 (amended): when the later file actually contributes an entry
for the code (its last row for that code has a non-empty extracted name or
kana), the table built from both files agrees at that code with the table
built from the later file alone — the later-processed file wins. -/
theorem load_simple_master_later_file_wins (F1 F2 : List Row) (code_col name_col : Nat)
    (kana_col : Option Nat) (c : String)
    (h : (dictGet (load_simple_master [F2] code_col name_col kana_col) c).isSome = true) :
    dictGet (load_simple_master [F1, F2] code_col name_col kana_col) c =
      dictGet (load_simple_master [F2] code_col name_col kana_col) c := by
  unfold load_simple_master at h ⊢
  simp only [List.foldl_cons, List.foldl_nil] at h ⊢
  simp only [dictGet_foldRows] at h ⊢
  cases hlast : lastRowValue code_col name_col kana_col c F2 with
  | some v => simp [hlast]
  | none =>
    rw [hlast] at h
    simp [dictGet] at h

/-- Witness for the amended C7 theorem at a concrete input. -/
theorem load_simple_master_later_file_wins_witness :
    dictGet (load_simple_master [[["C", "old"]], [["C", "new"]]] 0 1 none) "C" =
      dictGet (load_simple_master [[["C", "new"]]] 0 1 none) "C" :=
  load_simple_master_later_file_wins [["C", "old"]] [["C", "new"]] 0 1 none "C" (by decide)

/-! ## C3: boundary counting and index assignment -/

theorem map_index_snoc (receipts : List UkeReceipt) (x : UkeReceipt)
    (hmap : receipts.map (fun t => t.index) = List.range' 1 receipts.length)
    (hx : x.index = receipts.length + 1) :
    (receipts ++ [x]).map (fun t => t.index) = List.range' 1 (receipts ++ [x]).length := by
  rw [List.map_append, List.length_append]
  simp only [List.map_cons, List.map_nil, List.length_cons, List.length_nil, Nat.zero_add]
  rw [hx, hmap, List.range'_concat]
  simp [Nat.add_comm]

theorem groupAux_length (rest : List UkeRecord) :
    ∀ (curOpt : Option UkeReceipt) (receipts : List UkeReceipt),
      (groupAux rest curOpt receipts).length =
        receipts.length + curOpt.toList.length +
          (rest.filter (fun r => r.record_type == "RE")).length := by
  induction rest with
  | nil =>
    intro curOpt receipts
    cases curOpt <;> simp [groupAux]
  | cons r rest ih =>
    intro curOpt receipts
    by_cases h : r.record_type = "RE"
    · have hb : (r.record_type == "RE") = true := beq_iff_eq.mpr h
      cases curOpt with
      | none =>
        rw [show groupAux (r :: rest) none receipts =
            groupAux rest
              (some { index := receipts.length + 1, start_line := r.line_no,
                      records := [r], header := none, diseases := [] }) receipts from by
          simp [groupAux, hb]]
        rw [ih]
        simp [List.filter_cons, hb]
        omega
      | some cur =>
        rw [show groupAux (r :: rest) (some cur) receipts =
            groupAux rest
              (some { index := (receipts ++ [finalizeReceipt cur]).length + 1,
                      start_line := r.line_no,
                      records := [r], header := none, diseases := [] })
              (receipts ++ [finalizeReceipt cur]) from by
          simp [groupAux, hb]]
        rw [ih]
        simp [List.filter_cons, hb]
        omega
    · have hb : (r.record_type == "RE") = false := by
        rw [beq_eq_false_iff_ne]
        exact h
      cases curOpt with
      | none =>
        rw [show groupAux (r :: rest) none receipts = groupAux rest none receipts from by
          simp [groupAux, hb]]
        rw [ih]
        simp [List.filter_cons, hb]
      | some cur =>
        rw [show groupAux (r :: rest) (some cur) receipts =
            groupAux rest (some { cur with records := cur.records ++ [r] }) receipts from by
          simp [groupAux, hb]]
        rw [ih]
        simp [List.filter_cons, hb]

theorem groupAux_indices (rest : List UkeRecord) :
    ∀ (curOpt : Option UkeReceipt) (receipts : List UkeReceipt),
      receipts.map (fun t => t.index) = List.range' 1 receipts.length →
      (∀ cur, curOpt = some cur → cur.index = receipts.length + 1) →
      (groupAux rest curOpt receipts).map (fun t => t.index) =
        List.range' 1 (groupAux rest curOpt receipts).length := by
  induction rest with
  | nil =>
    intro curOpt receipts hmap hcur
    cases curOpt with
    | none => simpa [groupAux] using hmap
    | some cur =>
      have hidx : (finalizeReceipt cur).index = receipts.length + 1 := hcur cur rfl
      simpa [groupAux] using map_index_snoc receipts (finalizeReceipt cur) hmap hidx
  | cons r rest ih =>
    intro curOpt receipts hmap hcur
    by_cases h : r.record_type = "RE"
    · have hb : (r.record_type == "RE") = true := beq_iff_eq.mpr h
      cases curOpt with
      | none =>
        rw [show groupAux (r :: rest) none receipts =
            groupAux rest
              (some { index := receipts.length + 1, start_line := r.line_no,
                      records := [r], header := none, diseases := [] }) receipts from by
          simp [groupAux, hb]]
        apply ih _ _ hmap
        intro cur hc
        cases hc
        rfl
      | some cur =>
        have hidx : (finalizeReceipt cur).index = receipts.length + 1 := hcur cur rfl
        rw [show groupAux (r :: rest) (some cur) receipts =
            groupAux rest
              (some { index := (receipts ++ [finalizeReceipt cur]).length + 1,
                      start_line := r.line_no,
                      records := [r], header := none, diseases := [] })
              (receipts ++ [finalizeReceipt cur]) from by
          simp [groupAux, hb]]
        apply ih _ _ (map_index_snoc receipts (finalizeReceipt cur) hmap hidx)
        intro cur2 hc
        cases hc
        rfl
    · have hb : (r.record_type == "RE") = false := by
        rw [beq_eq_false_iff_ne]
        exact h
      cases curOpt with
      | none =>
        rw [show groupAux (r :: rest) none receipts = groupAux rest none receipts from by
          simp [groupAux, hb]]
        apply ih _ _ hmap
        intro cur hc
        cases hc
      | some cur =>
        rw [show groupAux (r :: rest) (some cur) receipts =
            groupAux rest (some { cur with records := cur.records ++ [r] }) receipts from by
          simp [groupAux, hb]]
        apply ih _ _ hmap
        intro cur2 hc
        cases hc
        exact hcur cur rfl

/-- Claim C3: `group_records_into_receipts` produces exactly one receipt per
RE boundary record, and the emitted `index` values are exactly `1..N` in
order, gap-free, for any input. -/
theorem group_boundary_count_and_indices (records : List UkeRecord) :
    (group_records_into_receipts records).length =
      (records.filter (fun r => r.record_type == "RE")).length
    ∧ (group_records_into_receipts records).map (fun t => t.index) =
        List.range' 1 (group_records_into_receipts records).length := by
  constructor
  · simpa [group_records_into_receipts] using groupAux_length records none []
  · exact groupAux_indices records none [] (by simp) (by intro cur hc; cases hc)

/-! ## C9: shape of every emitted receipt -/

theorem groupAux_wf (rest : List UkeRecord) :
    ∀ (curOpt : Option UkeReceipt) (receipts : List UkeReceipt),
      (∀ t ∈ receipts, receiptWf t) →
      (∀ cur, curOpt = some cur → ∃ first, cur.records.head? = some first ∧
        first.record_type = "RE" ∧ cur.start_line = first.line_no) →
      ∀ t ∈ groupAux rest curOpt receipts, receiptWf t := by
  induction rest with
  | nil =>
    intro curOpt receipts hrec hcur
    cases curOpt with
    | none => simpa [groupAux] using hrec
    | some cur =>
      intro t ht
      simp only [groupAux] at ht
      rcases List.mem_append.mp ht with hmem | hmem
      · exact hrec t hmem
      · have ht2 : t = finalizeReceipt cur := by simpa using hmem
        subst ht2
        obtain ⟨first, h1, h2, h3⟩ := hcur cur rfl
        exact ⟨first, h1, h2, h3, rfl⟩
  | cons r rest ih =>
    intro curOpt receipts hrec hcur
    by_cases h : r.record_type = "RE"
    · have hb : (r.record_type == "RE") = true := beq_iff_eq.mpr h
      cases curOpt with
      | none =>
        rw [show groupAux (r :: rest) none receipts =
            groupAux rest
              (some { index := receipts.length + 1, start_line := r.line_no,
                      records := [r], header := none, diseases := [] }) receipts from by
          simp [groupAux, hb]]
        apply ih _ _ hrec
        intro cur hc
        cases hc
        exact ⟨r, rfl, h, rfl⟩
      | some cur =>
        rw [show groupAux (r :: rest) (some cur) receipts =
            groupAux rest
              (some { index := (receipts ++ [finalizeReceipt cur]).length + 1,
                      start_line := r.line_no,
                      records := [r], header := none, diseases := [] })
              (receipts ++ [finalizeReceipt cur]) from by
          simp [groupAux, hb]]
        apply ih
        · intro t ht
          rcases List.mem_append.mp ht with hmem | hmem
          · exact hrec t hmem
          · have ht2 : t = finalizeReceipt cur := by simpa using hmem
            subst ht2
            obtain ⟨first, h1, h2, h3⟩ := hcur cur rfl
            exact ⟨first, h1, h2, h3, rfl⟩
        · intro cur2 hc
          cases hc
          exact ⟨r, rfl, h, rfl⟩
    · have hb : (r.record_type == "RE") = false := by
        rw [beq_eq_false_iff_ne]
        exact h
      cases curOpt with
      | none =>
        rw [show groupAux (r :: rest) none receipts = groupAux rest none receipts from by
          simp [groupAux, hb]]
        apply ih _ _ hrec
        intro cur hc
        cases hc
      | some cur =>
        rw [show groupAux (r :: rest) (some cur) receipts =
            groupAux rest (some { cur with records := cur.records ++ [r] }) receipts from by
          simp [groupAux, hb]]
        apply ih _ _ hrec
        intro cur2 hc
        cases hc
        obtain ⟨first, h1, h2, h3⟩ := hcur cur rfl
        refine ⟨first, ?_, h2, h3⟩
        simp [List.head?_append, h1]

/-- Claim C9: every receipt emitted by `group_records_into_receipts` has a
non-empty record list whose first record is the RE boundary record, takes
`start_line` from that record, and carries a header parsed from its own
records (headers are never absent). -/
theorem grouped_receipts_wellformed (records : List UkeRecord) :
    ∀ t ∈ group_records_into_receipts records, receiptWf t :=
  groupAux_wf records none [] (by simp) (by intro cur hc; cases hc)

/-- Witness for C9 on a one-record input. -/
theorem grouped_receipts_wellformed_witness :
    receiptWf { index := 1, start_line := 1,
                records := [⟨1, "RE,1", "RE", ["RE", "1"]⟩],
                header := some (parse_receipt_header [⟨1, "RE,1", "RE", ["RE", "1"]⟩]),
                diseases := [] } :=
  grouped_receipts_wellformed [⟨1, "RE,1", "RE", ["RE", "1"]⟩] _ (by decide)

/-! ## C4: tokenizer line accounting and field join -/

theorem all_dropWhile_of_imp {p q : Char → Bool} (h : ∀ c, p c = true → q c = true) :
    ∀ cs : List Char, ((cs.dropWhile p).all q) = cs.all q := by
  intro cs
  induction cs with
  | nil => rfl
  | cons c cs ih =>
    by_cases hc : p c = true
    · rw [List.dropWhile_cons]
      simp [hc, ih, h c hc]
    · rw [List.dropWhile_cons]
      simp [hc]

theorem isBlank_rstripCRLF (s : String) : isBlankStr (rstripCRLF s) = isBlankStr s := by
  show ((s.data.reverse.dropWhile isCRLF).reverse).all pyIsSpace = s.data.all pyIsSpace
  rw [List.all_reverse]
  rw [all_dropWhile_of_imp]
  · rw [List.all_reverse]
  · intro c hc
    have h2 : c = '\r' ∨ c = '\n' := by simpa [isCRLF] using hc
    rcases h2 with h2 | h2 <;> subst h2 <;> decide

theorem splitCommaAux_ne_nil : ∀ (cs acc : List Char), splitCommaAux acc cs ≠ [] := by
  intro cs
  induction cs with
  | nil => intro acc; simp [splitCommaAux]
  | cons c rest ih =>
    intro acc
    by_cases hc : c = ','
    · simp [splitCommaAux, hc]
    · simpa [splitCommaAux, hc] using ih (c :: acc)

theorem joinCommaCh_cons (x : List Char) (l : List (List Char)) (hl : l ≠ []) :
    joinCommaCh (x :: l) = x ++ ',' :: joinCommaCh l := by
  cases l with
  | nil => exact absurd rfl hl
  | cons y t => rfl

theorem joinCommaCh_splitCommaAux : ∀ (cs acc : List Char),
    joinCommaCh (splitCommaAux acc cs) = acc.reverse ++ cs := by
  intro cs
  induction cs with
  | nil => intro acc; simp [splitCommaAux, joinCommaCh]
  | cons c rest ih =>
    intro acc
    by_cases hc : c = ','
    · subst hc
      rw [show splitCommaAux acc (',' :: rest) = acc.reverse :: splitCommaAux [] rest from by
        simp [splitCommaAux]]
      rw [joinCommaCh_cons _ _ (splitCommaAux_ne_nil rest [])]
      rw [ih []]
      simp
    · rw [show splitCommaAux acc (c :: rest) = splitCommaAux (c :: acc) rest from by
        simp [splitCommaAux, hc]]
      rw [ih (c :: acc)]
      simp

theorem pyJoinComma_map_mk : ∀ (parts : List (List Char)),
    (pyJoinComma (parts.map String.mk)).data = joinCommaCh parts := by
  intro parts
  induction parts with
  | nil => rfl
  | cons x parts ih =>
    cases parts with
    | nil => rfl
    | cons y t =>
      show (String.mk x ++ "," ++ pyJoinComma ((y :: t).map String.mk)).data =
        x ++ ',' :: joinCommaCh (y :: t)
      rw [String.data_append, String.data_append, ih]
      simp

theorem pyJoinComma_pySplitComma (s : String) : pyJoinComma (pySplitComma s) = s := by
  apply string_eq_of_data
  show (pyJoinComma ((splitCommaAux [] s.data).map String.mk)).data = s.data
  rw [pyJoinComma_map_mk, joinCommaCh_splitCommaAux]
  rfl

theorem parseLinesFrom_spec : ∀ (lines : List String) (n : Nat),
    (parseLinesFrom n lines).map (fun t => t.line_no) =
      ((List.enumFrom n lines).filter (fun p => !isBlankStr p.2)).map (fun p => p.1)
    ∧ (parseLinesFrom n lines).map (fun t => t.raw) =
      ((List.enumFrom n lines).filter (fun p => !isBlankStr p.2)).map (fun p => rstripCRLF p.2)
    ∧ (parseLinesFrom n lines).map (fun t => pyJoinComma t.fields) =
      (parseLinesFrom n lines).map (fun t => t.raw) := by
  intro lines
  induction lines with
  | nil => intro n; simp [parseLinesFrom]
  | cons line rest ih =>
    intro n
    obtain ⟨ih1, ih2, ih3⟩ := ih (n + 1)
    by_cases hb : isBlankStr line = true
    · have hb2 : isBlankStr (rstripCRLF line) = true := by rw [isBlank_rstripCRLF]; exact hb
      simp only [parseLinesFrom, hb2, ite_true, if_pos, List.enumFrom_cons, List.filter_cons,
        hb, Bool.not_true, Bool.false_eq_true]
      exact ⟨ih1, ih2, ih3⟩
    · have hb0 : isBlankStr line = false := by
        cases hE : isBlankStr line
        · rfl
        · exact absurd hE hb
      have hb2 : isBlankStr (rstripCRLF line) = false := by rw [isBlank_rstripCRLF]; exact hb0
      simp only [parseLinesFrom, hb2, Bool.false_eq_true, ite_false, if_neg,
        List.enumFrom_cons, List.filter_cons, hb0, Bool.not_false, ite_true, if_pos]
      refine ⟨?_, ?_, ?_⟩
      · simpa [mkUkeRecord] using ih1
      · simpa [mkUkeRecord] using ih2
      · simp only [List.map_cons, mkUkeRecord]
        rw [ih3]
        simp [pyJoinComma_pySplitComma]

/-- Claim C4: `parse_uke_text` emits exactly one record per non-blank line
and none for blank lines; each record's `line_no` is the 1-based physical
line number in the original text (blank lines still advance the counter);
each record's `raw` is its original line less the trailing line terminator;
and joining a record's `fields` with `","` reconstructs `raw` exactly. -/
theorem parse_uke_text_line_accounting (text : String) :
    (parse_uke_text text).map (fun t => t.line_no) =
      ((List.enumFrom 1 (text.splitOn "\n")).filter (fun p => !isBlankStr p.2)).map (fun p => p.1)
    ∧ (parse_uke_text text).map (fun t => t.raw) =
      ((List.enumFrom 1 (text.splitOn "\n")).filter (fun p => !isBlankStr p.2)).map
        (fun p => rstripCRLF p.2)
    ∧ (parse_uke_text text).map (fun t => pyJoinComma t.fields) =
        (parse_uke_text text).map (fun t => t.raw) :=
  parseLinesFrom_spec (text.splitOn "\n") 1

/-! ## C5: cache signature order independence and sensitivity -/

theorem digitChar_ne_colon (d : Nat) : digitChar d ≠ ':' := by
  unfold digitChar
  split_ifs <;> decide

theorem digitChar_inj_lt : ∀ d < 10, ∀ e < 10, digitChar d = digitChar e → d = e := by decide

theorem natDec_zero : natDec 0 = "0" := by simp [natDec]

theorem natDec_of_ne_zero {n : Nat} (hn : n ≠ 0) :
    natDec n = String.mk (((Nat.digits 10 n).map digitChar).reverse) := by
  simp [natDec, hn]

theorem natDec_no_colon (n : Nat) : ':' ∉ (natDec n).data := by
  unfold natDec
  split_ifs with h
  · decide
  · show ':' ∉ ((Nat.digits 10 n).map digitChar).reverse
    intro hmem
    rw [List.mem_reverse] at hmem
    obtain ⟨d, _, hd⟩ := List.mem_map.mp hmem
    exact digitChar_ne_colon d hd

theorem map_digitChar_inj : ∀ (ds : List Nat), (∀ d ∈ ds, d < 10) → ∀ (es : List Nat),
    (∀ e ∈ es, e < 10) → ds.map digitChar = es.map digitChar → ds = es := by
  intro ds
  induction ds with
  | nil =>
    intro _ es _ h
    cases es with
    | nil => rfl
    | cons e es => simp at h
  | cons d ds ih =>
    intro hds es hes h
    cases es with
    | nil => simp at h
    | cons e es =>
      simp only [List.map_cons, List.cons.injEq] at h
      have hd : d < 10 := hds d (List.mem_cons_self d ds)
      have he : e < 10 := hes e (List.mem_cons_self e es)
      have hde := digitChar_inj_lt d hd e he h.1
      have htail := ih (fun x hx => hds x (List.mem_cons_of_mem _ hx)) es
        (fun x hx => hes x (List.mem_cons_of_mem _ hx)) h.2
      rw [hde, htail]

theorem natDec_ne_zero_of_ne {n : Nat} (hn : n ≠ 0) : natDec n ≠ "0" := by
  intro h
  rw [natDec_of_ne_zero hn] at h
  have hdata : ((Nat.digits 10 n).map digitChar).reverse = ['0'] := congrArg String.data h
  have hlen : (Nat.digits 10 n).length = 1 := by
    have := congrArg List.length hdata
    simpa using this
  obtain ⟨d, hd⟩ := List.length_eq_one.mp hlen
  have hd0 : digitChar d = '0' := by
    rw [hd] at hdata
    simpa using hdata
  have hdlt : d < 10 := Nat.digits_lt_base (by norm_num) (by rw [hd]; simp)
  have hdz : d = 0 := digitChar_inj_lt d hdlt 0 (by norm_num) (hd0.trans (by decide))
  have hlast := Nat.getLast_digit_ne_zero 10 hn
  simp only [hd, List.getLast_singleton] at hlast
  exact hlast hdz

theorem natDec_inj {m n : Nat} (h : natDec m = natDec n) : m = n := by
  by_cases hm : m = 0
  · by_cases hn : n = 0
    · rw [hm, hn]
    · exfalso
      rw [hm, natDec_zero] at h
      exact natDec_ne_zero_of_ne hn h.symm
  · by_cases hn : n = 0
    · exfalso
      rw [hn, natDec_zero] at h
      exact natDec_ne_zero_of_ne hm h
    · rw [natDec_of_ne_zero hm, natDec_of_ne_zero hn] at h
      have hdata : ((Nat.digits 10 m).map digitChar).reverse =
          ((Nat.digits 10 n).map digitChar).reverse := congrArg String.data h
      rw [List.reverse_inj] at hdata
      have h3 := map_digitChar_inj _ (fun d hd => Nat.digits_lt_base (by norm_num) hd) _
        (fun d hd => Nat.digits_lt_base (by norm_num) hd) hdata
      have h4 := congrArg (Nat.ofDigits 10) h3
      rw [Nat.ofDigits_digits, Nat.ofDigits_digits] at h4
      exact_mod_cast h4

theorem colon_split : ∀ (u : List Char), ':' ∉ u → ∀ (v : List Char), ':' ∉ v →
    ∀ (x y : List Char), u ++ ':' :: x = v ++ ':' :: y → u = v ∧ x = y := by
  intro u
  induction u with
  | nil =>
    intro _ v hv x y h
    cases v with
    | nil => simpa using h
    | cons b v =>
      exfalso
      simp only [List.nil_append, List.cons_append, List.cons.injEq] at h
      apply hv
      rw [← h.1]
      exact List.mem_cons_self _ _
  | cons a u ih =>
    intro hu v hv x y h
    cases v with
    | nil =>
      exfalso
      simp only [List.cons_append, List.nil_append, List.cons.injEq] at h
      apply hu
      rw [h.1]
      exact List.mem_cons_self _ _
    | cons b v =>
      simp only [List.cons_append, List.cons.injEq] at h
      obtain ⟨h1, h2⟩ := h
      have hu2 : ':' ∉ u := fun hh => hu (List.mem_cons_of_mem a hh)
      have hv2 : ':' ∉ v := fun hh => hv (List.mem_cons_of_mem b hh)
      obtain ⟨e1, e2⟩ := ih hu2 v hv2 x y h2
      exact ⟨by rw [h1, e1], e2⟩

theorem statEnc_some_ne_missing (q : String) (m s : Nat) :
    q ++ ":" ++ natDec m ++ ":" ++ natDec s ≠ q ++ ":missing" := by
  intro h
  have hdata := congrArg String.data h
  have hc : (":" : String).data = [':'] := rfl
  have hc2 : (":missing" : String).data = [':', 'm', 'i', 's', 's', 'i', 'n', 'g'] := rfl
  simp only [String.data_append, hc, hc2, List.append_assoc, List.cons_append,
    List.nil_append] at hdata
  have h3 := List.append_cancel_left hdata
  have h5 : (natDec m).data ++ ':' :: (natDec s).data = ['m', 'i', 's', 's', 'i', 'n', 'g'] := by
    injection h3
  have h6 : (':' : Char) ∈ (natDec m).data ++ ':' :: (natDec s).data :=
    List.mem_append_right _ (List.mem_cons_self _ _)
  rw [h5] at h6
  exact absurd h6 (by decide)

theorem statPart_ne {stat stat2 : StatFn} {p : String} (h : stat p ≠ stat2 p) :
    statPart stat p ≠ statPart stat2 p := by
  intro heq
  apply h
  unfold statPart at heq
  cases h1 : stat p with
  | none =>
    cases h2 : stat2 p with
    | none => rfl
    | some ms =>
      rw [h1, h2] at heq
      obtain ⟨m, s⟩ := ms
      exact absurd heq.symm (statEnc_some_ne_missing (pathName p) m s)
  | some ms =>
    obtain ⟨m, s⟩ := ms
    cases h2 : stat2 p with
    | none =>
      rw [h1, h2] at heq
      exact absurd heq (statEnc_some_ne_missing (pathName p) m s)
    | some ms2 =>
      obtain ⟨m2, s2⟩ := ms2
      rw [h1, h2] at heq
      have hdata := congrArg String.data heq
      have hc : (":" : String).data = [':'] := rfl
      simp only [String.data_append, hc, List.append_assoc, List.cons_append,
        List.nil_append] at hdata
      have h3 := List.append_cancel_left hdata
      have h5 : (natDec m).data ++ ':' :: (natDec s).data =
          (natDec m2).data ++ ':' :: (natDec s2).data := by
        injection h3
      obtain ⟨e1, e2⟩ := colon_split _ (natDec_no_colon m) _ (natDec_no_colon m2) _ _ h5
      have hm := natDec_inj (string_eq_of_data e1)
      have hs := natDec_inj (string_eq_of_data e2)
      rw [hm, hs]

theorem joinUnderscore_cons (x : String) (l : List String) (hl : l ≠ []) :
    joinUnderscore (x :: l) = x ++ "_" ++ joinUnderscore l := by
  cases l with
  | nil => exact absurd rfl hl
  | cons y t => rfl

theorem joinUnderscore_inj_at : ∀ (P : List String) (a b : String) (S : List String),
    joinUnderscore (P ++ a :: S) = joinUnderscore (P ++ b :: S) → a = b := by
  intro P
  induction P with
  | nil =>
    intro a b S h
    cases S with
    | nil => simpa [joinUnderscore] using h
    | cons s t =>
      rw [List.nil_append, List.nil_append] at h
      rw [joinUnderscore_cons a _ (by simp), joinUnderscore_cons b _ (by simp)] at h
      exact string_append_right_cancel (string_append_right_cancel h)
  | cons p P ih =>
    intro a b S h
    rw [List.cons_append, List.cons_append] at h
    rw [joinUnderscore_cons p _ (by simp), joinUnderscore_cons p _ (by simp)] at h
    exact ih a b S (string_append_left_cancel h)

theorem sortPaths_perm_eq {l l2 : List String} (h : l.Perm l2) : sortPaths l = sortPaths l2 := by
  apply List.eq_of_perm_of_sorted (r := fun a b : String => a ≤ b)
  · exact (List.perm_insertionSort _ l).trans (h.trans (List.perm_insertionSort _ l2).symm)
  · exact List.sorted_insertionSort _ l
  · exact List.sorted_insertionSort _ l2

theorem build_signature_sensitive (paths : List String) (stat stat2 : StatFn) (p : String)
    (hnd : paths.Nodup) (hp : p ∈ paths) (hne : stat p ≠ stat2 p)
    (hsame : ∀ q ∈ paths, q ≠ p → stat q = stat2 q) :
    _build_signature paths stat ≠ _build_signature paths stat2 := by
  intro heq
  unfold _build_signature at heq
  have hperm : (sortPaths paths).Perm paths := List.perm_insertionSort _ paths
  have hndp : (sortPaths paths).Nodup := hperm.nodup_iff.mpr hnd
  have hps : p ∈ sortPaths paths := hperm.mem_iff.mpr hp
  obtain ⟨P, S, hPS⟩ := List.append_of_mem hps
  rw [hPS] at hndp
  have hnotin : p ∉ P ++ S := by
    rw [List.nodup_middle] at hndp
    exact (List.nodup_cons.mp hndp).1
  have hmem : ∀ q, q ∈ P ∨ q ∈ S → q ∈ paths := by
    intro q hq
    apply hperm.mem_iff.mp
    rw [hPS]
    rcases hq with hq | hq
    · exact List.mem_append.mpr (Or.inl hq)
    · exact List.mem_append.mpr (Or.inr (List.mem_cons_of_mem p hq))
  have hmapP : P.map (statPart stat) = P.map (statPart stat2) := by
    apply List.map_congr_left
    intro q hq
    have hqp : q ≠ p := fun hh => hnotin (hh ▸ List.mem_append.mpr (Or.inl hq))
    unfold statPart
    rw [hsame q (hmem q (Or.inl hq)) hqp]
  have hmapS : S.map (statPart stat) = S.map (statPart stat2) := by
    apply List.map_congr_left
    intro q hq
    have hqp : q ≠ p := fun hh => hnotin (hh ▸ List.mem_append.mpr (Or.inr hq))
    unfold statPart
    rw [hsame q (hmem q (Or.inr hq)) hqp]
  rw [hPS, List.map_append, List.map_append, List.map_cons, List.map_cons, hmapP, hmapS] at heq
  exact statPart_ne hne (joinUnderscore_inj_at (P.map (statPart stat2)) _ _ _ heq)

/-- Claim C5: `_build_signature` is order-independent in the supplied path
list (signatures of permuted lists are equal), and it distinguishes any
change to one contributing file's stat result — a changed mtime or size,
or a file becoming missing (encoded as a `missing` marker), always yields
a different signature when the other files' stats are unchanged. -/
theorem build_signature_order_free_and_sensitive :
    (∀ (l l2 : List String) (stat : StatFn), l.Perm l2 →
      _build_signature l stat = _build_signature l2 stat)
    ∧ (∀ (paths : List String) (stat stat2 : StatFn) (p : String),
        paths.Nodup → p ∈ paths → stat p ≠ stat2 p →
        (∀ q ∈ paths, q ≠ p → stat q = stat2 q) →
        _build_signature paths stat ≠ _build_signature paths stat2) := by
  constructor
  · intro l l2 stat h
    unfold _build_signature
    rw [sortPaths_perm_eq h]
  · exact fun paths stat stat2 p h1 h2 h3 h4 =>
      build_signature_sensitive paths stat stat2 p h1 h2 h3 h4

/-- Witness for C5: a two-path permutation produces equal signatures, and a
one-path stat change (present with mtime 1 and size 2, versus missing)
produces different signatures. -/
theorem build_signature_order_free_and_sensitive_witness :
    _build_signature ["b", "a"] (fun _ => none) = _build_signature ["a", "b"] (fun _ => none)
    ∧ _build_signature ["a"] (fun _ => some (1, 2)) ≠ _build_signature ["a"] (fun _ => none) :=
  ⟨build_signature_order_free_and_sensitive.1 ["b", "a"] ["a", "b"] (fun _ => none) (by decide),
   build_signature_order_free_and_sensitive.2 ["a"] (fun _ => some (1, 2)) (fun _ => none) "a"
     (by decide) (by decide) (by decide) (by decide)⟩
